import Mathlib

/-!
# Verification of the Google Ads Keyword Intelligence dashboard (src/HD.py)

A shallow embedding of the data-processing pipeline of `src/HD.py`:
ingestion of uploaded CSV files, normalization (column renaming, numeric
coercion, dropping rows without a search term), the keyword-summary,
top-terms and mapping views, the coverage (search-gap) analyzer, and the
AI-insight request handler.

Modelling decisions, with the pandas semantics they embed:
* Cell values are `Cell` (null / rational number / string); pandas `NaN`
  cells are `Cell.null`.  Machine floats are modelled by `ℚ`, with the
  special values NaN, +inf and -inf produced by division carried by
  `PVal`.
* `pd.to_numeric(col, errors="coerce").fillna(0)` maps an unparseable
  string to null and then every null to 0; already-numeric cells are kept
  unchanged (including negative values).
* `df.dropna(subset=["search_term"])` drops exactly the rows whose
  `search_term` cell is null; the empty string is not null in pandas and
  is retained.
* Elementwise float division: `0/0` is NaN, `q/0` is +inf for `q > 0` and
  -inf for `q < 0`.  `Series.fillna(0)` replaces NaN only (never an
  infinity); `Series.replace([float("inf")], 0)` replaces +inf only.
* `df.groupby(k)` uses the pandas defaults `sort=True` (group keys in
  ascending order) and `dropna=True` (null group keys are dropped with
  their rows' contributions).
* `df.sort_values(by=c, ascending=False)` follows pandas `nargsort`: it
  computes the ascending argsort of the column and reverses the indexer,
  so rows with equal keys appear in *reversed* input order (numpy's sort
  is stable on the small inputs at issue; the reversal is unconditional).
* `pd.concat([], ignore_index=True)` on an empty list raises
  `ValueError`; the script does not catch it.
-/

namespace HD

/-- A cell of the tabular dataset: pandas `NaN` (`null`), a numeric value,
or a string. -/
inductive Cell where
  | null : Cell
  | num : ℚ → Cell
  | str : String → Cell
deriving DecidableEq, Repr

/-- A raw row as parsed from a CSV file: an association list from column
name to cell, in column order. -/
abbrev RRow := List (String × Cell)

/-- A raw dataframe: a list of rows. -/
abbrev RawDF := List RRow

/-- The column renaming of `df.rename(columns={...})` (HD.py lines 52-61):
vendor header names are mapped to canonical names, all other names are
left unchanged. -/
def renameCol (k : String) : String :=
  if k = "Search term" then "search_term"
  else if k = "Keyword" then "keyword"
  else if k = "Campaign" then "campaign"
  else if k = "Ad group" then "ad_group"
  else if k = "Impr." then "impressions"
  else if k = "Interactions" then "clicks"
  else if k = "Cost" then "cost"
  else if k = "Match type" then "match_type"
  else k

/-- Rename every column label of a row. -/
def renameRow (r : RRow) : RRow :=
  r.map (fun kv => (renameCol kv.1, kv.2))

/-- Model of the numeric parsing done by `pd.to_numeric(·, errors="coerce")`
on a decimal string: optional sign, integer digits, optional fractional
digits.  Strings outside this fragment parse to `none` (pandas: `NaN`). -/
def parseDigits (cs : List Char) (acc : ℚ) : Option ℚ :=
  match cs with
  | [] => some acc
  | c :: rest =>
      if c.isDigit then parseDigits rest (acc * 10 + (c.toNat - '0'.toNat : ℕ))
      else none

/-- Parse the fractional digits after the decimal point. -/
def parseFrac (cs : List Char) (acc : ℚ) (scale : ℚ) : Option ℚ :=
  match cs with
  | [] => some acc
  | c :: rest =>
      if c.isDigit then
        parseFrac rest (acc + (c.toNat - '0'.toNat : ℕ) * scale / 10) (scale / 10)
      else none

/-- Parse an unsigned decimal numeral, with an optional fractional part. -/
def parseUnsigned (cs : List Char) : Option ℚ :=
  match cs.span (fun c => c.isDigit) with
  | (intPart, rest) =>
      if intPart.isEmpty then none
      else
        match parseDigits intPart 0 with
        | none => none
        | some ip =>
            match rest with
            | [] => some ip
            | '.' :: frac =>
                if frac.isEmpty then some ip
                else (parseFrac frac 0 1).map (fun fp => ip + fp)
            | _ => none

/-- Parse a decimal string to a rational, modelling pandas numeric
coercion. -/
def parseNum (s : String) : Option ℚ :=
  match s.toList with
  | '-' :: rest => (parseUnsigned rest).map (fun q => -q)
  | '+' :: rest => parseUnsigned rest
  | cs => parseUnsigned cs

/-- `pd.to_numeric(·, errors="coerce")` on one cell: numbers pass through,
strings are parsed (unparseable becomes null), null stays null. -/
def toNumericCell (c : Cell) : Cell :=
  match c with
  | Cell.null => Cell.null
  | Cell.num q => Cell.num q
  | Cell.str s =>
      match parseNum s with
      | some q => Cell.num q
      | none => Cell.null

/-- `.fillna(0)` on one cell: null becomes 0, everything else is kept. -/
def fillZero (c : Cell) : Cell :=
  match c with
  | Cell.null => Cell.num 0
  | c => c

/-- The three numeric columns cleaned at HD.py lines 64-65. -/
def numCols : List String := ["impressions", "clicks", "cost"]

/-- Apply `to_numeric(...).fillna(0)` to every binding of a row whose
column is one of the numeric columns.  (The real script indexes the
column by name; a row simply lacking the binding is left unchanged here,
and theorems that need the column assume its presence.) -/
def coerceRow (r : RRow) : RRow :=
  r.map (fun kv => if kv.1 ∈ numCols then (kv.1, fillZero (toNumericCell kv.2)) else kv)

/-- Look a column up in a row; a missing binding reads as null (pandas
`NaN`). -/
def getCell (r : RRow) (k : String) : Cell :=
  ((r.find? (fun kv => kv.1 = k)).map Prod.snd).getD Cell.null

/-- Whether a row has a binding for column `k`. -/
def hasCol (r : RRow) (k : String) : Bool :=
  r.any (fun kv => kv.1 = k)

/-- One row through renaming and numeric coercion (HD.py lines 52-65). -/
def normRow (r : RRow) : RRow :=
  coerceRow (renameRow r)

/-- The predicate of `dropna(subset=["search_term"])`: keep a row iff its
`search_term` cell is not null. -/
def keepRow (r : RRow) : Bool :=
  !(getCell r "search_term" == Cell.null)

/-- Normalization (HD.py lines 52-67): rename the vendor columns, coerce
the numeric columns with default 0, then `dropna(subset=["search_term"])`. -/
def normalize (d : RawDF) : RawDF :=
  (d.map normRow).filter keepRow

/-! ## The filtered dataset and its aggregation views

After normalization and the sidebar filters, the frame `filtered_df` has a
non-null `search_term`, a `keyword` that may still be null (pandas `NaN`,
modelled by `none`), and definite numeric metrics.  The five views of the
aggregation engine are computed from a list of such rows. -/

/-- A row of the filtered dataset (`filtered_df` of HD.py). -/
structure NRow where
  search_term : String
  keyword : Option String
  campaign : String
  ad_group : String
  match_type : String
  impressions : ℚ
  clicks : ℚ
  cost : ℚ
  account : String
deriving DecidableEq, Repr

/-- A pandas float value as produced by elementwise division: NaN, +inf,
-inf, or a finite value. -/
inductive PVal where
  | nan : PVal
  | inf : PVal
  | ninf : PVal
  | fin : ℚ → PVal
deriving DecidableEq, Repr

/-- Elementwise float division of two finite values, with the numpy zero
rules: `0/0` is NaN, `q/0` is +inf for positive `q` and -inf for negative
`q`. -/
def pdiv (a b : ℚ) : PVal :=
  if b = 0 then
    if a = 0 then PVal.nan
    else if 0 < a then PVal.inf
    else PVal.ninf
  else PVal.fin (a / b)

/-- `Series.fillna(0)` on a float value: NaN becomes 0; the infinities are
not NA and pass through. -/
def fillnaZero (v : PVal) : PVal :=
  match v with
  | PVal.nan => PVal.fin 0
  | v => v

/-- `Series.replace([float("inf")], 0)` on a float value: +inf becomes 0;
NaN and -inf pass through. -/
def replaceInfZero (v : PVal) : PVal :=
  match v with
  | PVal.inf => PVal.fin 0
  | v => v

/-! ### Stable sorting, the pandas way

`sort_values(by=c, ascending=False)` in pandas computes the ascending
argsort of the column and reverses the resulting indexer (`nargsort` in
`pandas/core/sorting.py`), so a descending sort is the reverse of the
ascending one and rows with equal keys come out in reversed input order.
The ascending sort is modelled by a stable insertion sort. -/

/-- Insert `x` into a list sorted ascending by the key `f`, before the
first element with a key `≥ f x` (stable for the fold below). -/
def insertAsc {α : Type} (f : α → ℚ) (x : α) : List α → List α
  | [] => [x]
  | y :: ys => if f x ≤ f y then x :: y :: ys else y :: insertAsc f x ys

/-- Stable ascending insertion sort by the key `f`. -/
def sortAsc {α : Type} (f : α → ℚ) : List α → List α
  | [] => []
  | x :: xs => insertAsc f x (sortAsc f xs)

/-- `sort_values(by=c, ascending=False)`: the reverse of the stable
ascending sort, as pandas computes it. -/
def sortDesc {α : Type} (f : α → ℚ) (l : List α) : List α :=
  (sortAsc f l).reverse

/-- Insert a key into a strictly-ascending list of strings, dropping
duplicates: used to model the sorted distinct group keys produced by
`groupby` (pandas default `sort=True`). -/
def insertKey (s : String) : List String → List String
  | [] => [s]
  | t :: ts =>
      if s = t then t :: ts
      else if s < t then s :: t :: ts
      else t :: insertKey s ts

/-- The sorted distinct keys of a list of strings. -/
def sortedKeys (l : List String) : List String :=
  l.foldr insertKey []

/-! ### Keyword Summary (HD.py lines 88-100) -/

/-- A row of the Keyword Summary table. -/
structure KSRow where
  keyword : String
  total_search_terms : ℕ
  total_impressions : ℚ
  total_clicks : ℚ
  total_cost : ℚ
  CTR : PVal
  CPC : PVal
deriving DecidableEq, Repr

/-- Rows of the filtered dataset grouped under keyword `k`. -/
def rowsOfKeyword (l : List NRow) (k : String) : List NRow :=
  l.filter (fun r => r.keyword = some k)

/-- The Keyword Summary row aggregated for keyword `k`:
`total_search_terms` is the number of distinct search terms
(`nunique`), the other totals are sums, and
`CTR = (total_clicks / total_impressions).fillna(0)`,
`CPC = (total_cost / total_clicks).replace([inf], 0)`. -/
def ksRowOf (l : List NRow) (k : String) : KSRow :=
  let rs := rowsOfKeyword l k
  let impr := (rs.map (fun r => r.impressions)).sum
  let clk := (rs.map (fun r => r.clicks)).sum
  let cst := (rs.map (fun r => r.cost)).sum
  { keyword := k
    total_search_terms := ((rs.map (fun r => r.search_term)).dedup).length
    total_impressions := impr
    total_clicks := clk
    total_cost := cst
    CTR := fillnaZero (pdiv clk impr)
    CPC := replaceInfZero (pdiv cst clk) }

/-- The group keys of `groupby("keyword")`: the distinct non-null
keywords, ascending (null keys are dropped, pandas default
`dropna=True`). -/
def keywordKeys (l : List NRow) : List String :=
  sortedKeys (l.filterMap (fun r => r.keyword))

/-- The Keyword Summary (HD.py lines 88-100): one aggregated row per
distinct non-null keyword, sorted by `total_search_terms` descending. -/
def keywordSummary (l : List NRow) : List KSRow :=
  sortDesc (fun g => (g.total_search_terms : ℚ))
    ((keywordKeys l).map (ksRowOf l))

/-! ### Top Terms (HD.py lines 130-135) -/

/-- A row of the Top Terms view. -/
structure TTRow where
  search_term : String
  clicks : ℚ
  impressions : ℚ
deriving DecidableEq, Repr

/-- Sum of clicks of the rows with search term `t`. -/
def clicksOfTerm (l : List NRow) (t : String) : ℚ :=
  ((l.filter (fun r => r.search_term = t)).map (fun r => r.clicks)).sum

/-- Sum of impressions of the rows with search term `t`. -/
def imprOfTerm (l : List NRow) (t : String) : ℚ :=
  ((l.filter (fun r => r.search_term = t)).map (fun r => r.impressions)).sum

/-- `groupby("search_term").agg(clicks=sum, impressions=sum)`: one group
per distinct search term, keys ascending (pandas default `sort=True`). -/
def termGroups (l : List NRow) : List TTRow :=
  (sortedKeys (l.map (fun r => r.search_term))).map
    (fun t => ⟨t, clicksOfTerm l t, imprOfTerm l t⟩)

/-- Top Terms (HD.py lines 130-135): the term groups sorted by clicks
descending, first 15 taken after sorting. -/
def topTerms (l : List NRow) : List TTRow :=
  (sortDesc (fun g => g.clicks) (termGroups l)).take 15

/-! ### Search Term → Keyword Mapping (HD.py lines 198-202) -/

/-- A row of the Mapping view: the per-row projection on
`search_term, keyword, impressions, clicks, cost`. -/
structure MRow where
  search_term : String
  keyword : Option String
  impressions : ℚ
  clicks : ℚ
  cost : ℚ
deriving DecidableEq, Repr

/-- Project a filtered row to its Mapping columns. -/
def mrowOf (r : NRow) : MRow :=
  ⟨r.search_term, r.keyword, r.impressions, r.clicks, r.cost⟩

/-- The Mapping view (HD.py lines 198-202): flat projection of every row,
sorted by clicks descending, no grouping. -/
def mapping (l : List NRow) : List MRow :=
  sortDesc (fun m => m.clicks) (l.map mrowOf)

/-! ### Coverage Analyzer (HD.py lines 151-162) -/

/-- Remove the characters `[`, `]` and `"`, as the regex substitution in
`clean_kw` does. -/
def stripBrackets (s : String) : String :=
  String.mk (s.toList.filter (fun c => !(c == '[' || c == ']' || c == '\"')))

/-- `clean_kw` (HD.py lines 151-154): a null keyword becomes the empty
string; otherwise strip brackets and quotes, trim whitespace, lowercase. -/
def clean_kw (k : Option String) : String :=
  match k with
  | none => ""
  | some s => ((stripBrackets s).trim).toLower

/-- `search_term_clean` (HD.py line 156): lowercase then trim. -/
def cleanTerm (s : String) : String :=
  s.toLower.trim

/-- `all_keywords` (HD.py line 160): the set of cleaned keywords of the
filtered rows, with the empty string removed. -/
def keywordSet (l : List NRow) : Finset String :=
  (l.map (fun r => clean_kw r.keyword)).toFinset \ {""}

/-- `all_search_terms` (HD.py line 161): the set of cleaned search terms
of the filtered rows. -/
def termSet (l : List NRow) : Finset String :=
  (l.map (fun r => cleanTerm r.search_term)).toFinset

/-- `uncovered_terms` (HD.py line 162): cleaned search terms not covered
by any cleaned keyword. -/
def uncoveredSet (l : List NRow) : Finset String :=
  termSet l \ keywordSet l

/-! ### Ingestion (HD.py lines 27-49)

The byte-level CSV parsing (`pd.read_csv(file, skiprows=2)`) is abstracted
as a per-file outcome: either a parsed dataframe or a raised exception
message.  Everything after that point is embedded: the empty-upload
prompt, the per-file `try/except` reporting, the `account` tagging and the
final `pd.concat`. -/

/-- Outcome of `pd.read_csv` on one uploaded file. -/
inductive FileParse where
  | ok : RawDF → FileParse
  | err : String → FileParse
deriving DecidableEq, Repr

/-- `df["account"] = file.name`: set (or add) the `account` column of a
row. -/
def setAccount (name : String) (r : RRow) : RRow :=
  if hasCol r "account" then
    r.map (fun kv => if kv.1 = "account" then (kv.1, Cell.str name) else kv)
  else r ++ [("account", Cell.str name)]

/-- Tag every row of a parsed file with its file name as `account`. -/
def tagDF (name : String) (d : RawDF) : RawDF :=
  d.map (setAccount name)

/-- Result of the ingestion prologue (HD.py lines 33-49). -/
inductive IngestResult where
  /-- `st.warning(...)` followed by `st.stop()` (lines 33-35). -/
  | haltPrompt : IngestResult
  /-- `pd.concat([])` raising an uncaught `ValueError` (line 49). -/
  | concatCrash : IngestResult
  /-- The combined dataset and the per-file error reports shown on the
  way (lines 41-49). -/
  | proceed : RawDF → List String → IngestResult
deriving DecidableEq, Repr

/-- The error messages reported by `st.error` for failing files, in file
order. -/
def parseErrors (files : List (String × FileParse)) : List String :=
  files.filterMap (fun f =>
    match f.2 with
    | FileParse.err m => some ("Error reading " ++ f.1 ++ ": " ++ m)
    | FileParse.ok _ => none)

/-- The successfully parsed dataframes, tagged with their file name, in
file order. -/
def parsedDFs (files : List (String × FileParse)) : List RawDF :=
  files.filterMap (fun f =>
    match f.2 with
    | FileParse.ok d => some (tagDF f.1 d)
    | FileParse.err _ => none)

/-- Ingestion (HD.py lines 27-49): with no files, warn and stop; otherwise
parse each file, reporting and skipping failures; concatenate the
successes — which raises an uncaught exception when every file failed. -/
def ingest (files : List (String × FileParse)) : IngestResult :=
  if files.isEmpty then IngestResult.haltPrompt
  else if (parsedDFs files).isEmpty then IngestResult.concatCrash
  else IngestResult.proceed (parsedDFs files).flatten (parseErrors files)

/-! ### Insight Requester (HD.py lines 212-261)

The handler of the "Generate AI Insights" button.  The HTTP exchange is
abstracted as a `ReqOutcome`: either an exception raised before a response
body could be parsed (covering the secrets lookup, the transport and a
malformed JSON body, all of which `raise` inside the `try` block), or a
parsed JSON value.  Everything from `result = response.json()` on is
embedded: the `"choices" in result` test, the nested subscripts — each a
possible exception, modelled in `Except` — and the outer `except` that
turns any raised exception into the `AI request failed` error box. -/

/-- A parsed JSON value. -/
inductive JVal where
  | jnull : JVal
  | jbool : Bool → JVal
  | jnum : ℚ → JVal
  | jstr : String → JVal
  | jarr : List JVal → JVal
  | jobj : List (String × JVal) → JVal

mutual

/-- Python `str()` rendering of a parsed JSON value, as interpolated into
the error f-strings. -/
def render : JVal → String
  | JVal.jnull => "None"
  | JVal.jbool true => "True"
  | JVal.jbool false => "False"
  | JVal.jnum q => toString q
  | JVal.jstr s => "\x27" ++ s ++ "\x27"
  | JVal.jarr xs => "[" ++ renderList xs ++ "]"
  | JVal.jobj fs => "\x7b" ++ renderFields fs ++ "\x7d"

/-- Render the comma-separated elements of a JSON list. -/
def renderList : List JVal → String
  | [] => ""
  | [x] => render x
  | x :: xs => render x ++ ", " ++ renderList xs

/-- Render the comma-separated `key: value` pairs of a JSON object. -/
def renderFields : List (String × JVal) → String
  | [] => ""
  | [kv] => "\x27" ++ kv.1 ++ "\x27: " ++ render kv.2
  | kv :: fs => "\x27" ++ kv.1 ++ "\x27: " ++ render kv.2 ++ ", " ++ renderFields fs

end

/-- Python `k in result` on a parsed JSON value: key membership for a
dict, element membership for a list, substring for a string, and a raised
`TypeError` otherwise. -/
def pyContains (k : String) : JVal → Except String Bool
  | JVal.jobj fs => Except.ok (fs.any (fun kv => kv.1 = k))
  | JVal.jarr xs =>
      Except.ok (xs.any (fun x => match x with | JVal.jstr s => s = k | _ => false))
  | JVal.jstr s => Except.ok (decide (2 ≤ (s.splitOn k).length ∨ k = s))
  | _ => Except.error "TypeError: argument is not iterable"

/-- Python `result[k]` on a parsed JSON value: dict lookup, raising
`KeyError` when the key is absent and `TypeError` on a non-dict. -/
def pyGetKey (j : JVal) (k : String) : Except String JVal :=
  match j with
  | JVal.jobj fs =>
      match (fs.find? (fun kv => kv.1 = k)).map Prod.snd with
      | some v => Except.ok v
      | none => Except.error ("KeyError: " ++ k)
  | _ => Except.error "TypeError: not subscriptable by a string"

/-- Python `result[i]` on a parsed JSON list: indexing, raising
`IndexError` out of range and `TypeError` on a non-list. -/
def pyGetIdx (j : JVal) (i : ℕ) : Except String JVal :=
  match j with
  | JVal.jarr xs =>
      match xs.get? i with
      | some v => Except.ok v
      | none => Except.error "IndexError: list index out of range"
  | _ => Except.error "TypeError: not subscriptable by an integer"

/-- What reached the handler: an exception raised before a JSON body was
parsed (secrets lookup, transport, `response.json()`), or the parsed
value. -/
inductive ReqOutcome where
  | raised : String → ReqOutcome
  | ok : JVal → ReqOutcome

/-- What the user is shown: a success box or an error box. -/
inductive Display where
  | success : String → Display
  | errorBox : String → Display
deriving DecidableEq, Repr

/-- `st.success` shows the extracted content; a non-string content is
rendered. -/
def asText (j : JVal) : String :=
  match j with
  | JVal.jstr s => s
  | j => render j

/-- The body of the `try` block from `result = response.json()` on
(HD.py lines 253-258), with every possible Python exception surfaced in
`Except`. -/
def tryBlock (o : ReqOutcome) : Except String Display :=
  match o with
  | ReqOutcome.raised m => Except.error m
  | ReqOutcome.ok j => do
      let b ← pyContains "choices" j
      if b then do
        let c ← pyGetKey j "choices"
        let first ← pyGetIdx c 0
        let msg ← pyGetKey first "message"
        let content ← pyGetKey msg "content"
        pure (Display.success (asText content))
      else
        pure (Display.errorBox ("AI response error: " ++ render j))

/-- The complete button handler (HD.py lines 212-261): the `try` block
wrapped in `except Exception as e: st.error(f"AI request failed: ...")`. -/
def aiHandler (o : ReqOutcome) : Display :=
  match tryBlock o with
  | Except.ok d => d
  | Except.error e => Display.errorBox ("AI request failed: " ++ e)

/-! ### Concrete datasets used to evaluate the pipeline -/

/-- A filtered-dataset row with fixed campaign metadata. -/
def mkRow (t : String) (k : Option String) (i c co : ℚ) : NRow :=
  ⟨t, k, "camp", "ag", "exact", i, c, co, "report.csv"⟩

/-- One keyword group with zero clicks and zero cost. -/
def rowsZeroClickCost : List NRow := [mkRow "t" (some "k") 10 0 0]

/-- One keyword group with positive metrics. -/
def rowsShoes : List NRow := [mkRow "buy shoes" (some "shoes") 100 10 5]

/-- One keyword group with zero impressions but positive clicks. -/
def rowsZeroImpr : List NRow := [mkRow "t" (some "k") 0 5 0]

/-- Two search terms tied on clicks, in upload (and alphabetical) order
`a` then `b`. -/
def rowsTie : List NRow := [mkRow "a" none 7 5 0, mkRow "b" none 7 5 0]

/-- A null-keyword row next to a keyworded one. -/
def rowsNullKw : List NRow := [mkRow "t1" none 3 2 1, mkRow "t2" (some "k") 4 3 2]

/-- A raw dataframe whose only row has an empty-string search term. -/
def dfEmptyTerm : RawDF := [[("Search term", Cell.str "")]]

/-- A raw dataframe whose only row has the numeric value -1 under the
vendor clicks column (as `read_csv` parses a literal `-1`). -/
def dfNegClicks : RawDF := [[("Search term", Cell.str "x"), ("Interactions", Cell.num (-1))]]

/-- A raw dataframe whose clicks cell does not parse as a number. -/
def dfBadClicks : RawDF := [[("Search term", Cell.str "x"), ("Interactions", Cell.str "abc")]]

/-- A well-formed chat-completion response carrying the text `"hi"`. -/
def respOk : JVal :=
  JVal.jobj [("choices", JVal.jarr [JVal.jobj [("message", JVal.jobj [("content", JVal.jstr "hi")])]])]

/-- A response object without a `choices` key. -/
def respNoChoices : JVal := JVal.jobj [("error", JVal.jstr "rate limited")]

/-! ## Theorems -/

/-- C6: for every filtered dataset, the coverage sets satisfy the
partition law: the uncovered set is disjoint from the keyword set, and
together with the covered part it recovers the whole term set. -/
theorem coverage_partition_law (l : List NRow) :
    uncoveredSet l ∩ keywordSet l = ∅ ∧
    uncoveredSet l ∪ (termSet l ∩ keywordSet l) = termSet l := by
  constructor
  · ext x
    simp only [uncoveredSet, Finset.mem_inter, Finset.mem_sdiff, Finset.not_mem_empty,
      iff_false]
    tauto
  · ext x
    simp only [uncoveredSet, Finset.mem_union, Finset.mem_inter, Finset.mem_sdiff]
    tauto

/-- C5 (amended): with zero files the script warns and stops; with at
least one file it never shows that prompt — if no file parsed,
`pd.concat` raises an uncaught exception instead; a failing file is
reported and skipped while every successfully parsed file is still
concatenated. -/
theorem ingest_spec (fs₁ fs₂ : List (String × FileParse)) (n m : String) :
    ingest [] = IngestResult.haltPrompt ∧
    ingest (fs₁ ++ (n, FileParse.err m) :: fs₂) ≠ IngestResult.haltPrompt ∧
    (parsedDFs (fs₁ ++ (n, FileParse.err m) :: fs₂) = [] →
      ingest (fs₁ ++ (n, FileParse.err m) :: fs₂) = IngestResult.concatCrash) ∧
    (parsedDFs (fs₁ ++ (n, FileParse.err m) :: fs₂) ≠ [] →
      ingest (fs₁ ++ (n, FileParse.err m) :: fs₂) =
        IngestResult.proceed ((parsedDFs fs₁ ++ parsedDFs fs₂).flatten)
          (parseErrors fs₁ ++ ("Error reading " ++ n ++ ": " ++ m) :: parseErrors fs₂)) := by
  have hskip : parsedDFs (fs₁ ++ (n, FileParse.err m) :: fs₂) = parsedDFs fs₁ ++ parsedDFs fs₂ := by
    simp [parsedDFs, List.filterMap_append, List.filterMap_cons]
  have hrep : parseErrors (fs₁ ++ (n, FileParse.err m) :: fs₂) =
      parseErrors fs₁ ++ ("Error reading " ++ n ++ ": " ++ m) :: parseErrors fs₂ := by
    simp [parseErrors, List.filterMap_append, List.filterMap_cons]
  have hne : (fs₁ ++ (n, FileParse.err m) :: fs₂).isEmpty = false := by
    cases fs₁ <;> simp [List.isEmpty]
  refine ⟨rfl, ?_, ?_, ?_⟩
  · intro h
    rw [ingest, hne] at h
    simp only [Bool.false_eq_true, if_false] at h
    split at h <;> simp_all
  · intro h
    rw [ingest, hne]
    simp [h]
  · intro h
    rw [ingest, hne]
    simp only [Bool.false_eq_true, if_false, List.isEmpty_eq_true, hskip, hrep]
    rw [hskip] at h
    simp [h]

/-- C5 counterexample: one file is provided and it fails to parse; the
script reaches `pd.concat([])`, which raises an uncaught `ValueError` —
it does not halt with the user-visible upload prompt. -/
theorem ingest_allfail_counterexample :
    ingest [("a.csv", FileParse.err "boom")] = IngestResult.concatCrash ∧
    IngestResult.concatCrash ≠ IngestResult.haltPrompt := by
  decide

/-- C5 witness: one good file and one failing file — the failure is
reported, the good file's rows are concatenated and tagged. -/
theorem ingest_spec_witness :
    ingest [("a.csv", FileParse.ok [[("Search term", Cell.str "go")]]),
            ("b.csv", FileParse.err "boom")] =
      IngestResult.proceed [[("Search term", Cell.str "go"), ("account", Cell.str "a.csv")]]
        ["Error reading b.csv: boom"] := by
  have h := ingest_spec [("a.csv", FileParse.ok [[("Search term", Cell.str "go")]])] [] "b.csv" "boom"
  exact (h.2.2.2 (by decide)).trans (by decide)

/-- C7: the insight handler shows the first choice's message content on a
well-shaped response; it shows an error box containing the rendered raw
response when `choices` is absent, an error box with the diagnostic when
an exception was raised (secrets, transport, JSON parsing), and in every
case it produces either a success box or an error box — it never
crashes. -/
theorem aiInsights_spec (fields f1 f2 : List (String × JVal)) (rest : List JVal)
    (s m : String) (o : ReqOutcome) :
    ((fields.find? (fun kv => kv.1 = "choices")).map Prod.snd =
        some (JVal.jarr (JVal.jobj f1 :: rest)) →
      (f1.find? (fun kv => kv.1 = "message")).map Prod.snd = some (JVal.jobj f2) →
      (f2.find? (fun kv => kv.1 = "content")).map Prod.snd = some (JVal.jstr s) →
      aiHandler (ReqOutcome.ok (JVal.jobj fields)) = Display.success s) ∧
    (fields.any (fun kv => kv.1 = "choices") = false →
      aiHandler (ReqOutcome.ok (JVal.jobj fields)) =
        Display.errorBox ("AI response error: " ++ render (JVal.jobj fields))) ∧
    (aiHandler (ReqOutcome.raised m) = Display.errorBox ("AI request failed: " ++ m)) ∧
    ((∃ t, aiHandler o = Display.success t) ∨ (∃ e, aiHandler o = Display.errorBox e)) := by
  refine ⟨?_, ?_, rfl, ?_⟩
  · intro h1 h2 h3
    have hmem : ∃ kv ∈ fields, kv.1 = "choices" := by
      rcases Option.map_eq_some'.mp h1 with ⟨kv, hfind, _⟩
      exact ⟨kv, List.mem_of_find?_eq_some hfind,
        by simpa using List.find?_some hfind⟩
    have hany : fields.any (fun kv => kv.1 = "choices") = true := by
      simp only [List.any_eq_true, decide_eq_true_eq]
      exact hmem
    simp [aiHandler, tryBlock, pyContains, hany, pyGetKey, h1, h2, h3, pyGetIdx,
      asText, bind, Except.bind, Functor.map, Except.map, pure, Except.pure]
  · intro h
    simp [aiHandler, tryBlock, pyContains, h, bind, Except.bind, pure, Except.pure]
  · rcases htb : tryBlock o with e | d
    · right
      exact ⟨"AI request failed: " ++ e, by simp [aiHandler, htb]⟩
    · cases d with
      | success t => exact Or.inl ⟨t, by simp [aiHandler, htb]⟩
      | errorBox e => exact Or.inr ⟨e, by simp [aiHandler, htb]⟩

/-- C7 witness: the handler at a well-shaped response and at a response
without `choices`. -/
theorem aiInsights_spec_witness :
    aiHandler (ReqOutcome.ok respOk) = Display.success "hi" ∧
    aiHandler (ReqOutcome.ok respNoChoices) =
      Display.errorBox ("AI response error: " ++ render respNoChoices) := by
  constructor
  · exact (aiInsights_spec
      [("choices", JVal.jarr [JVal.jobj [("message", JVal.jobj [("content", JVal.jstr "hi")])]])]
      [("message", JVal.jobj [("content", JVal.jstr "hi")])]
      [("content", JVal.jstr "hi")] [] "hi" "" (ReqOutcome.ok respOk)).1 rfl rfl rfl
  · exact (aiInsights_spec [("error", JVal.jstr "rate limited")] [] [] [] "" ""
      (ReqOutcome.ok respNoChoices)).2.1 rfl

/-! ### Normalization lemmas -/

/-- The column renaming is idempotent: no canonical name is itself a
vendor name. -/
theorem renameCol_idem (k : String) : renameCol (renameCol k) = renameCol k := by
  by_cases h1 : k = "Search term"
  · subst h1; decide
  by_cases h2 : k = "Keyword"
  · subst h2; decide
  by_cases h3 : k = "Campaign"
  · subst h3; decide
  by_cases h4 : k = "Ad group"
  · subst h4; decide
  by_cases h5 : k = "Impr."
  · subst h5; decide
  by_cases h6 : k = "Interactions"
  · subst h6; decide
  by_cases h7 : k = "Cost"
  · subst h7; decide
  by_cases h8 : k = "Match type"
  · subst h8; decide
  have hk : renameCol k = k := by
    unfold renameCol
    rw [if_neg h1, if_neg h2, if_neg h3, if_neg h4, if_neg h5, if_neg h6, if_neg h7, if_neg h8]
  rw [hk, hk]

/-- One application of `to_numeric(...).fillna(0)` settles a cell: a
second application does not change it. -/
theorem cellCoerce_idem (c : Cell) :
    fillZero (toNumericCell (fillZero (toNumericCell c))) = fillZero (toNumericCell c) := by
  cases c with
  | null => rfl
  | num q => rfl
  | str s =>
      cases h : parseNum s <;> simp [toNumericCell, h, fillZero]

/-- `to_numeric(...).fillna(0)` always yields a number. -/
theorem cellCoerce_num (c : Cell) : ∃ q, fillZero (toNumericCell c) = Cell.num q := by
  cases c with
  | null => exact ⟨0, rfl⟩
  | num q => exact ⟨q, rfl⟩
  | str s =>
      cases h : parseNum s with
      | none => exact ⟨0, by simp [toNumericCell, h, fillZero]⟩
      | some q => exact ⟨q, by simp [toNumericCell, h, fillZero]⟩

/-- Every column label of a once-normalized row is a fixed point of the
renaming. -/
theorem normRow_keys_fixed (r : RRow) :
    ∀ kv ∈ normRow r, renameCol kv.1 = kv.1 := by
  intro kv hkv
  simp only [normRow, coerceRow, renameRow, List.map_map, List.mem_map] at hkv
  rcases hkv with ⟨kv', _, rfl⟩
  by_cases hm : renameCol kv'.1 ∈ numCols <;>
    simp [Function.comp, hm, renameCol_idem]

/-- Renaming a once-normalized row changes nothing. -/
theorem renameRow_normRow (r : RRow) : renameRow (normRow r) = normRow r := by
  have h := normRow_keys_fixed r
  calc renameRow (normRow r)
      = (normRow r).map id := by
        apply List.map_congr_left
        intro kv hkv
        simp [h kv hkv]
    _ = normRow r := List.map_id _

/-- Numeric coercion of a row is idempotent. -/
theorem coerceRow_idem (r : RRow) : coerceRow (coerceRow r) = coerceRow r := by
  simp only [coerceRow, List.map_map]
  apply List.map_congr_left
  intro kv _
  by_cases hm : kv.1 ∈ numCols <;> simp [Function.comp, hm, cellCoerce_idem]

/-- Row normalization is idempotent. -/
theorem normRow_idem (r : RRow) : normRow (normRow r) = normRow r := by
  show coerceRow (renameRow (normRow r)) = normRow r
  rw [renameRow_normRow, normRow, coerceRow_idem]

/-- C9: Normalization is idempotent — renaming, numeric coercion and the
`dropna` on `search_term` all leave an already-normalized dataset
unchanged. -/
theorem normalize_idem (d : RawDF) : normalize (normalize d) = normalize d := by
  have hfix : ∀ x ∈ normalize d, normRow x = x := by
    intro x hx
    rcases List.mem_map.mp (List.mem_of_mem_filter hx) with ⟨a, _, rfl⟩
    exact normRow_idem a
  have hmap : (normalize d).map normRow = normalize d := by
    calc (normalize d).map normRow
        = (normalize d).map id := List.map_congr_left hfix
      _ = normalize d := List.map_id _
  show ((normalize d).map normRow).filter keepRow = normalize d
  rw [hmap]
  apply List.filter_eq_self.mpr
  intro a ha
  exact List.of_mem_filter ha

/-- C3 (amended): after Normalization no retained row has a *null*
`search_term` — rows whose `search_term` cell is null are dropped.  (The
empty string is not null and is retained; see the counterexample.) -/
theorem normalize_search_term_not_null (d : RawDF) (r : RRow) (hr : r ∈ normalize d) :
    getCell r "search_term" ≠ Cell.null := by
  have h := List.of_mem_filter hr
  simpa [keepRow] using h

/-- C3 witness: a concrete normalized row has a non-null search term. -/
theorem normalize_search_term_not_null_witness :
    getCell [("search_term", Cell.str "shoes")] "search_term" ≠ Cell.null :=
  normalize_search_term_not_null [[("Search term", Cell.str "shoes")]]
    [("search_term", Cell.str "shoes")] (by decide)

/-- C3 counterexample: a row whose `search_term` is the *empty string*
survives Normalization — `dropna` removes only null cells, so the claim
that no row is retained with an empty `search_term` is false. -/
theorem normalize_keeps_empty_term_counterexample :
    normalize dfEmptyTerm = [[("search_term", Cell.str "")]] ∧
    Cell.str "" ≠ Cell.null := by
  exact ⟨rfl, by decide⟩

/-- C4 (amended): after Normalization every present numeric column holds
an actual number — parse failures and nulls became 0 — but it need not be
nonnegative (see the counterexample). -/
theorem normalize_numeric_fields_num (d : RawDF) (r : RRow) (c : String)
    (hr : r ∈ normalize d) (hc : c ∈ numCols) (hcol : hasCol r c = true) :
    ∃ q, getCell r c = Cell.num q := by
  have hsome : (r.find? (fun kv => kv.1 = c)).isSome := by
    rw [List.find?_isSome]
    simpa [hasCol] using hcol
  rcases Option.isSome_iff_exists.mp hsome with ⟨kv₀, hfind⟩
  have hkv₀c : kv₀.1 = c := by
    have := List.find?_some hfind
    simpa using this
  have hget : getCell r c = kv₀.2 := by
    simp [getCell, hfind]
  rcases List.mem_map.mp (List.mem_of_mem_filter hr) with ⟨a, _, rfl⟩
  have hkv₀mem : kv₀ ∈ normRow a := List.mem_of_find?_eq_some hfind
  simp only [normRow, coerceRow, List.mem_map] at hkv₀mem
  rcases hkv₀mem with ⟨kv₁, _, hkv₁⟩
  by_cases hm : kv₁.1 ∈ numCols
  · rw [if_pos hm] at hkv₁
    rcases cellCoerce_num kv₁.2 with ⟨q, hq⟩
    exact ⟨q, by rw [hget, ← hkv₁]; exact hq⟩
  · rw [if_neg hm] at hkv₁
    exact absurd hc (by rw [← hkv₀c, ← hkv₁]; exact hm)

/-- C4 witness: an unparseable clicks cell comes out as the number 0. -/
theorem normalize_numeric_fields_num_witness :
    ∃ q, getCell [("search_term", Cell.str "x"), ("clicks", Cell.num 0)] "clicks" = Cell.num q :=
  normalize_numeric_fields_num dfBadClicks
    [("search_term", Cell.str "x"), ("clicks", Cell.num 0)] "clicks"
    (by decide) (by decide) (by decide)

/-- C4 counterexample: a clicks cell holding -1 passes through numeric
coercion unchanged, so the claim that numeric fields are always ≥ 0 is
false. -/
theorem normalize_negative_counterexample :
    normalize dfNegClicks = [[("search_term", Cell.str "x"), ("clicks", Cell.num (-1))]] ∧
    ¬(0 ≤ (-1 : ℚ)) := by
  constructor
  · decide
  · norm_num

/-! ### Sorting lemmas -/

/-- Membership through `insertAsc`. -/
theorem mem_insertAsc {α : Type} (f : α → ℚ) (x y : α) (l : List α) :
    y ∈ insertAsc f x l ↔ y = x ∨ y ∈ l := by
  induction l with
  | nil => simp [insertAsc]
  | cons z zs ih =>
      by_cases h : f x ≤ f z
      · simp [insertAsc, h]
      · simp [insertAsc, h, ih]
        tauto

/-- Sorting does not change membership. -/
theorem mem_sortAsc {α : Type} (f : α → ℚ) (y : α) (l : List α) :
    y ∈ sortAsc f l ↔ y ∈ l := by
  induction l with
  | nil => simp [sortAsc]
  | cons z zs ih => simp [sortAsc, mem_insertAsc, ih]

/-- A descending pandas sort does not change membership. -/
theorem mem_sortDesc {α : Type} (f : α → ℚ) (y : α) (l : List α) :
    y ∈ sortDesc f l ↔ y ∈ l := by
  simp [sortDesc, mem_sortAsc]

/-- The rows of the Keyword Summary are exactly the aggregated rows of
the distinct non-null keywords. -/
theorem mem_keywordSummary (l : List NRow) (g : KSRow) :
    g ∈ keywordSummary l ↔ ∃ k ∈ keywordKeys l, ksRowOf l k = g := by
  simp [keywordSummary, mem_sortDesc]

/-! ### CPC and CTR -/

/-- C1 (amended): for every keyword group (costs nonnegative), CPC is the
ratio `total_cost / total_clicks`; it is 0 when the ratio is +inf
(`total_clicks = 0` with positive cost), but when `total_clicks = 0` and
`total_cost = 0` the ratio is NaN and the `replace([inf], 0)` leaves it
NaN — not 0. -/
theorem keywordSummary_CPC (l : List NRow) (hc : ∀ r ∈ l, 0 ≤ r.cost)
    (g : KSRow) (hg : g ∈ keywordSummary l) :
    g.CPC = if g.total_clicks = 0 then
        (if g.total_cost = 0 then PVal.nan else PVal.fin 0)
      else PVal.fin (g.total_cost / g.total_clicks) := by
  rcases (mem_keywordSummary l g).mp hg with ⟨k, _, rfl⟩
  have hcost : 0 ≤ ((rowsOfKeyword l k).map (fun r => r.cost)).sum := by
    apply List.sum_nonneg
    intro x hx
    rcases List.mem_map.mp hx with ⟨r, hr, rfl⟩
    exact hc r (List.mem_of_mem_filter hr)
  simp only [ksRowOf]
  by_cases hclk : ((rowsOfKeyword l k).map (fun r => r.clicks)).sum = 0
  · by_cases hcst : ((rowsOfKeyword l k).map (fun r => r.cost)).sum = 0
    · simp [pdiv, replaceInfZero, hclk, hcst]
    · have hpos : 0 < ((rowsOfKeyword l k).map (fun r => r.cost)).sum :=
        lt_of_le_of_ne hcost (Ne.symm hcst)
      simp [pdiv, replaceInfZero, hclk, hcst, hpos]
  · simp [pdiv, replaceInfZero, hclk]

/-- C1 witness: the CPC formula evaluated on a concrete one-keyword
dataset. -/
theorem keywordSummary_CPC_witness :
    (ksRowOf rowsShoes "shoes").CPC =
      if (ksRowOf rowsShoes "shoes").total_clicks = 0 then
        (if (ksRowOf rowsShoes "shoes").total_cost = 0 then PVal.nan else PVal.fin 0)
      else PVal.fin ((ksRowOf rowsShoes "shoes").total_cost / (ksRowOf rowsShoes "shoes").total_clicks) := by
  have hg : ksRowOf rowsShoes "shoes" ∈ keywordSummary rowsShoes := by
    apply (mem_keywordSummary rowsShoes (ksRowOf rowsShoes "shoes")).mpr
    exact ⟨"shoes", by decide, rfl⟩
  exact keywordSummary_CPC rowsShoes
    (by rintro r hr; simp [rowsShoes, mkRow] at hr; subst hr; norm_num)
    (ksRowOf rowsShoes "shoes") hg

/-- C1 counterexample: a keyword group with zero clicks and zero cost has
CPC NaN, not 0 — `0/0` is NaN and only +inf is replaced by 0. -/
theorem cpc_zero_zero_counterexample :
    (keywordSummary rowsZeroClickCost).map (fun g => g.CPC) = [PVal.nan] ∧
    PVal.nan ≠ PVal.fin 0 := by
  constructor
  · simp [keywordSummary, sortDesc, sortAsc, insertAsc, keywordKeys, rowsZeroClickCost,
      mkRow, sortedKeys, insertKey, ksRowOf, rowsOfKeyword, pdiv, replaceInfZero,
      List.filterMap_cons]
  · decide

/-- C2 (amended): for every keyword group (clicks and impressions
nonnegative), CTR is the ratio `total_clicks / total_impressions`; it is
0 when impressions and clicks are both 0 (`0/0` is NaN, filled to 0), but
it is +inf — not 0, and not in `[0, ∞)` — when `total_impressions = 0`
with positive clicks; every finite CTR value is nonnegative. -/
theorem keywordSummary_CTR (l : List NRow)
    (h : ∀ r ∈ l, 0 ≤ r.clicks ∧ 0 ≤ r.impressions)
    (g : KSRow) (hg : g ∈ keywordSummary l) :
    (g.CTR = if g.total_impressions = 0 then
        (if g.total_clicks = 0 then PVal.fin 0 else PVal.inf)
      else PVal.fin (g.total_clicks / g.total_impressions)) ∧
    (∀ q, g.CTR = PVal.fin q → 0 ≤ q) := by
  rcases (mem_keywordSummary l g).mp hg with ⟨k, _, rfl⟩
  have hclk : 0 ≤ ((rowsOfKeyword l k).map (fun r => r.clicks)).sum := by
    apply List.sum_nonneg
    intro x hx
    rcases List.mem_map.mp hx with ⟨r, hr, rfl⟩
    exact (h r (List.mem_of_mem_filter hr)).1
  have himp : 0 ≤ ((rowsOfKeyword l k).map (fun r => r.impressions)).sum := by
    apply List.sum_nonneg
    intro x hx
    rcases List.mem_map.mp hx with ⟨r, hr, rfl⟩
    exact (h r (List.mem_of_mem_filter hr)).2
  simp only [ksRowOf]
  by_cases himp0 : ((rowsOfKeyword l k).map (fun r => r.impressions)).sum = 0
  · by_cases hclk0 : ((rowsOfKeyword l k).map (fun r => r.clicks)).sum = 0
    · constructor
      · simp [pdiv, fillnaZero, himp0, hclk0]
      · intro q hq
        simp [pdiv, fillnaZero, himp0, hclk0] at hq
        simp [← hq]
    · have hpos : 0 < ((rowsOfKeyword l k).map (fun r => r.clicks)).sum :=
        lt_of_le_of_ne hclk (Ne.symm hclk0)
      constructor
      · simp [pdiv, fillnaZero, himp0, hclk0, hpos]
      · intro q hq
        simp [pdiv, fillnaZero, himp0, hclk0, hpos] at hq
  · have hpos : 0 < ((rowsOfKeyword l k).map (fun r => r.impressions)).sum :=
      lt_of_le_of_ne himp (Ne.symm himp0)
    constructor
    · simp [pdiv, fillnaZero, himp0]
    · intro q hq
      simp [pdiv, fillnaZero, himp0] at hq
      rw [← hq]
      exact div_nonneg hclk (le_of_lt hpos)

/-- C2 witness: the CTR characterization evaluated on a concrete
one-keyword dataset. -/
theorem keywordSummary_CTR_witness :
    ((ksRowOf rowsShoes "shoes").CTR =
      if (ksRowOf rowsShoes "shoes").total_impressions = 0 then
        (if (ksRowOf rowsShoes "shoes").total_clicks = 0 then PVal.fin 0 else PVal.inf)
      else PVal.fin ((ksRowOf rowsShoes "shoes").total_clicks /
        (ksRowOf rowsShoes "shoes").total_impressions)) ∧
    (∀ q, (ksRowOf rowsShoes "shoes").CTR = PVal.fin q → 0 ≤ q) := by
  have hg : ksRowOf rowsShoes "shoes" ∈ keywordSummary rowsShoes := by
    apply (mem_keywordSummary rowsShoes (ksRowOf rowsShoes "shoes")).mpr
    exact ⟨"shoes", by decide, rfl⟩
  exact keywordSummary_CTR rowsShoes
    (by rintro r hr; simp [rowsShoes, mkRow] at hr; subst hr; constructor <;> norm_num)
    (ksRowOf rowsShoes "shoes") hg

/-- C2 counterexample: a keyword group with zero impressions but positive
clicks has CTR +inf — `fillna(0)` replaces only NaN, so the CTR is
neither 0 nor inside `[0, ∞)`. -/
theorem ctr_zero_impressions_counterexample :
    (keywordSummary rowsZeroImpr).map (fun g => g.CTR) = [PVal.inf] ∧
    PVal.inf ≠ PVal.fin 0 := by
  constructor
  · norm_num [keywordSummary, sortDesc, sortAsc, insertAsc, keywordKeys, rowsZeroImpr,
      mkRow, sortedKeys, insertKey, ksRowOf, rowsOfKeyword, pdiv, fillnaZero,
      List.filterMap_cons]
  · decide

/-! ### Top Terms: lengths, order and ties -/

/-- Inserting adds one to the length. -/
theorem length_insertAsc {α : Type} (f : α → ℚ) (x : α) (l : List α) :
    (insertAsc f x l).length = l.length + 1 := by
  induction l with
  | nil => rfl
  | cons z zs ih => by_cases h : f x ≤ f z <;> simp [insertAsc, h, ih]

/-- Sorting preserves the length. -/
theorem length_sortAsc {α : Type} (f : α → ℚ) (l : List α) :
    (sortAsc f l).length = l.length := by
  induction l with
  | nil => rfl
  | cons z zs ih => simp [sortAsc, length_insertAsc, ih]

/-- The lexicographic order the pandas ascending sort establishes when
the input rows carry strictly increasing tie keys: ascending in `f`, and
ascending in `g` on `f`-ties. -/
theorem pairwise_lex_insertAsc {α : Type} (f : α → ℚ) (g : α → String) (x : α) (l : List α)
    (hl : l.Pairwise (fun a b => f a < f b ∨ (f a = f b ∧ g a < g b)))
    (hx : ∀ y ∈ l, g x < g y) :
    (insertAsc f x l).Pairwise (fun a b => f a < f b ∨ (f a = f b ∧ g a < g b)) := by
  induction l with
  | nil => simp [insertAsc]
  | cons z zs ih =>
      rw [List.pairwise_cons] at hl
      obtain ⟨hz, hzs⟩ := hl
      by_cases h : f x ≤ f z
      · simp only [insertAsc, if_pos h]
        rw [List.pairwise_cons]
        constructor
        · intro y hy
          rcases List.mem_cons.mp hy with rfl | hy
          · rcases lt_or_eq_of_le h with hlt | heq
            · exact Or.inl hlt
            · exact Or.inr ⟨heq, hx y (List.mem_cons_self y zs)⟩
          · rcases hz y hy with h1 | ⟨h1, _⟩
            · exact Or.inl (lt_of_le_of_lt h h1)
            · rcases lt_or_eq_of_le (le_of_le_of_eq h h1) with hlt | heq
              · exact Or.inl hlt
              · exact Or.inr ⟨heq, hx y (List.mem_cons_of_mem z hy)⟩
        · rw [List.pairwise_cons]
          exact ⟨hz, hzs⟩
      · simp only [insertAsc, if_neg h]
        push_neg at h
        rw [List.pairwise_cons]
        constructor
        · intro y hy
          rcases (mem_insertAsc f x y zs).mp hy with rfl | hy
          · exact Or.inl h
          · exact hz y hy
        · exact ih hzs (fun y hy => hx y (List.mem_cons_of_mem z hy))

/-- Sorting a list whose tie keys strictly increase yields the full
lexicographic chain: the sort is stable, so `f`-ties stay in input
order. -/
theorem pairwise_lex_sortAsc {α : Type} (f : α → ℚ) (g : α → String) (l : List α)
    (hl : l.Pairwise (fun a b => g a < g b)) :
    (sortAsc f l).Pairwise (fun a b => f a < f b ∨ (f a = f b ∧ g a < g b)) := by
  induction l with
  | nil => simp [sortAsc]
  | cons x xs ih =>
      rw [List.pairwise_cons] at hl
      apply pairwise_lex_insertAsc f g x _ (ih hl.2)
      intro y hy
      exact hl.1 y ((mem_sortAsc f y xs).mp hy)

/-- Membership through `insertKey`. -/
theorem mem_insertKey (s t : String) (l : List String) :
    t ∈ insertKey s l ↔ t = s ∨ t ∈ l := by
  induction l with
  | nil => simp [insertKey]
  | cons z zs ih =>
      by_cases h1 : s = z
      · subst h1
        simp only [insertKey, if_pos rfl]
        simp
      · by_cases h2 : s < z
        · simp only [insertKey, if_neg h1, if_pos h2]
          simp
        · simp only [insertKey, if_neg h1, if_neg h2]
          simp [ih]
          tauto

/-- `insertKey` preserves strict ascending order. -/
theorem pairwise_insertKey (s : String) (l : List String)
    (hl : l.Pairwise (fun a b => a < b)) :
    (insertKey s l).Pairwise (fun a b => a < b) := by
  induction l with
  | nil => simp [insertKey]
  | cons z zs ih =>
      rw [List.pairwise_cons] at hl
      obtain ⟨hz, hzs⟩ := hl
      by_cases h1 : s = z
      · subst h1
        simp only [insertKey, if_pos rfl]
        exact List.pairwise_cons.mpr ⟨hz, hzs⟩
      · by_cases h2 : s < z
        · simp only [insertKey, if_neg h1, if_pos h2]
          refine List.pairwise_cons.mpr ⟨?_, List.pairwise_cons.mpr ⟨hz, hzs⟩⟩
          intro y hy
          rcases List.mem_cons.mp hy with rfl | hy
          · exact h2
          · exact lt_trans h2 (hz y hy)
        · have h3 : z < s := by
            rcases lt_trichotomy s z with h | h | h
            · exact absurd h h2
            · exact absurd h h1
            · exact h
          simp only [insertKey, if_neg h1, if_neg h2]
          refine List.pairwise_cons.mpr ⟨?_, ih hzs⟩
          intro y hy
          rcases (mem_insertKey s y zs).mp hy with rfl | hy
          · exact h3
          · exact hz y hy

/-- The group keys are strictly ascending — `groupby(sort=True)`. -/
theorem pairwise_sortedKeys (l : List String) :
    (sortedKeys l).Pairwise (fun a b => a < b) := by
  induction l with
  | nil => simp [sortedKeys]
  | cons x xs ih => exact pairwise_insertKey x (sortedKeys xs) ih

/-- The group keys are exactly the values occurring in the input. -/
theorem mem_sortedKeys (t : String) (l : List String) :
    t ∈ sortedKeys l ↔ t ∈ l := by
  induction l with
  | nil => simp [sortedKeys]
  | cons x xs ih =>
      show t ∈ insertKey x (sortedKeys xs) ↔ _
      rw [mem_insertKey]
      simp [ih]

/-- C8 (amended): Top Terms groups the filtered rows by `search_term`
with correct clicks/impressions sums, takes `min 15 (number of groups)`
rows, and sorts by clicks descending — but clicks ties come out in
*descending* `search_term` order (the reverse of the ascending group
order), because pandas realizes a descending sort as the reverse of the
ascending stable sort; ties are not in original group order. -/
theorem topTerms_spec (l : List NRow) :
    (topTerms l).length = min 15 (termGroups l).length ∧
    (topTerms l).Pairwise (fun a b =>
      b.clicks < a.clicks ∨ (b.clicks = a.clicks ∧ b.search_term < a.search_term)) ∧
    (∀ g ∈ topTerms l, g.clicks = clicksOfTerm l g.search_term ∧
      g.impressions = imprOfTerm l g.search_term ∧
      g.search_term ∈ l.map (fun r => r.search_term)) := by
  refine ⟨?_, ?_, ?_⟩
  · simp [topTerms, sortDesc, length_sortAsc]
  · have hkeys : (termGroups l).Pairwise (fun a b => a.search_term < b.search_term) := by
      rw [termGroups, List.pairwise_map]
      exact pairwise_sortedKeys _
    have hsorted := pairwise_lex_sortAsc (fun g => g.clicks) (fun g => g.search_term)
      (termGroups l) hkeys
    have hrev := List.pairwise_reverse.mpr hsorted
    exact List.Pairwise.sublist (List.take_sublist 15 _) hrev
  · intro g hg
    simp only [topTerms] at hg
    have hg' : g ∈ termGroups l :=
      (mem_sortDesc (fun g => g.clicks) g (termGroups l)).mp (List.mem_of_mem_take hg)
    rw [termGroups, List.mem_map] at hg'
    obtain ⟨t, ht, rfl⟩ := hg'
    exact ⟨rfl, rfl, (mem_sortedKeys t _).mp ht⟩

/-- Evaluation of Top Terms on the tied dataset: the tie comes out
reversed. -/
theorem topTerms_rowsTie_eval :
    topTerms rowsTie = [⟨"b", 5, 7⟩, ⟨"a", 5, 7⟩] := by
  have hab : ("a" : String) < "b" := by
    rw [String.lt_iff_toList_lt]
    decide
  have hkeys : sortedKeys (rowsTie.map (fun r => r.search_term)) = ["a", "b"] := by
    simp [rowsTie, mkRow, sortedKeys, insertKey, hab]
  have hgroups : termGroups rowsTie = [⟨"a", 5, 7⟩, ⟨"b", 5, 7⟩] := by
    rw [termGroups, hkeys]
    simp [clicksOfTerm, imprOfTerm, rowsTie, mkRow, List.filter_cons]
  rw [topTerms, hgroups]
  simp [sortDesc, sortAsc, insertAsc]

/-- C8 counterexample: two search terms tied on clicks, appearing (and
grouped) in the order `a`, `b` — Top Terms lists `b` first, so ties are
not broken by the stable original group order. -/
theorem topTerms_tie_counterexample :
    (topTerms rowsTie).map (fun g => g.search_term) = ["b", "a"] ∧
    rowsTie.map (fun r => r.search_term) = ["a", "b"] ∧
    (["b", "a"] : List String) ≠ ["a", "b"] := by
  refine ⟨?_, by simp [rowsTie, mkRow], by decide⟩
  rw [topTerms_rowsTie_eval]
  rfl

/-- C8 witness: the characterization applied to the tied dataset, with
the per-group part discharged at the group of `"b"`. -/
theorem topTerms_spec_witness :
    (topTerms rowsTie).length = min 15 (termGroups rowsTie).length ∧
    ((⟨"b", 5, 7⟩ : TTRow).clicks = clicksOfTerm rowsTie "b" ∧
     (⟨"b", 5, 7⟩ : TTRow).impressions = imprOfTerm rowsTie "b" ∧
     "b" ∈ rowsTie.map (fun r => r.search_term)) := by
  have h := topTerms_spec rowsTie
  have hmem : (⟨"b", 5, 7⟩ : TTRow) ∈ topTerms rowsTie := by
    rw [topTerms_rowsTie_eval]
    exact List.mem_cons_self _ _
  exact ⟨h.1, h.2.2 ⟨"b", 5, 7⟩ hmem⟩

/-! ### Null keywords across the views -/

/-- Group keys ignore the rows whose keyword is null. -/
theorem filterMap_keyword_filter (l : List NRow) :
    (l.filter (fun r => r.keyword.isSome)).filterMap (fun r => r.keyword) =
      l.filterMap (fun r => r.keyword) := by
  induction l with
  | nil => rfl
  | cons x xs ih =>
      cases hx : x.keyword with
      | none => simp [List.filter_cons, List.filterMap_cons, hx, ih]
      | some k => simp [List.filter_cons, List.filterMap_cons, hx, ih]

/-- The rows grouped under a keyword are unaffected by dropping the
null-keyword rows. -/
theorem rowsOfKeyword_filter (l : List NRow) (k : String) :
    rowsOfKeyword (l.filter (fun r => r.keyword.isSome)) k = rowsOfKeyword l k := by
  rw [rowsOfKeyword, rowsOfKeyword, List.filter_filter]
  apply List.filter_congr
  intro x _
  cases hx : x.keyword <;> simp [hx]

/-- Click sums per term ignore the keyword column. -/
theorem clicksOfTerm_eraseKw (l : List NRow) (t : String) :
    clicksOfTerm (l.map (fun r => { r with keyword := none })) t = clicksOfTerm l t := by
  simp only [clicksOfTerm, List.filter_map, List.map_map]
  rfl

/-- Impression sums per term ignore the keyword column. -/
theorem imprOfTerm_eraseKw (l : List NRow) (t : String) :
    imprOfTerm (l.map (fun r => { r with keyword := none })) t = imprOfTerm l t := by
  simp only [imprOfTerm, List.filter_map, List.map_map]
  rfl

/-- The term groups ignore the keyword column. -/
theorem termGroups_eraseKw (l : List NRow) :
    termGroups (l.map (fun r => { r with keyword := none })) = termGroups l := by
  simp only [termGroups, List.map_map, clicksOfTerm_eraseKw, imprOfTerm_eraseKw]
  rfl

/-- C10: rows with a null keyword produce no Keyword Summary row and
contribute nothing to it (`groupby` drops null keys with their metrics),
yet the same rows still contribute to Top Terms — erasing every keyword
changes nothing there — and appear in the Mapping view. -/
theorem null_keyword_views (l : List NRow) (r : NRow) (hr : r ∈ l) (_hk : r.keyword = none) :
    keywordSummary l = keywordSummary (l.filter (fun r => r.keyword.isSome)) ∧
    topTerms (l.map (fun r => { r with keyword := none })) = topTerms l ∧
    mrowOf r ∈ mapping l := by
  refine ⟨?_, ?_, ?_⟩
  · rw [keywordSummary, keywordSummary, keywordKeys, keywordKeys, filterMap_keyword_filter]
    congr 1
    apply List.map_congr_left
    intro k _
    simp [ksRowOf, rowsOfKeyword_filter]
  · rw [topTerms, topTerms, termGroups_eraseKw]
  · exact (mem_sortDesc (fun m => m.clicks) (mrowOf r) _).mpr
      (List.mem_map_of_mem mrowOf hr)

/-- C10 witness: the three view facts evaluated on a concrete dataset
whose first row has a null keyword. -/
theorem null_keyword_views_witness :
    keywordSummary rowsNullKw = keywordSummary (rowsNullKw.filter (fun r => r.keyword.isSome)) ∧
    topTerms (rowsNullKw.map (fun r => { r with keyword := none })) = topTerms rowsNullKw ∧
    mrowOf (mkRow "t1" none 3 2 1) ∈ mapping rowsNullKw :=
  null_keyword_views rowsNullKw (mkRow "t1" none 3 2 1)
    (List.mem_cons_self _ _) rfl

end HD
